import Mathlib

/-!
Shallow embedding of the reconciliation matching engine of the
Forensic-Template repository (`forensics/reconciliation.py`), together with
the surrounding data model (`forensics/models.py`) as far as the engine
uses it.

Modelling conventions:
* `date` is the day number of a calendar date (an integer); date
  subtraction in days (`(d1 - d2).days` in the source) is integer
  subtraction, and `timedelta(days=5)` is the integer `5`.
* `amount` (a `DecimalField` with two decimal places, compared with exact
  decimal equality) is an integer count of minor units.
* Django's `Transaction.objects.filter(account_id=...)` returns rows in
  the model's default ordering `['-date', '-created_at']`
  (`Transaction.Meta.ordering` in `models.py`); `loadTxs` applies that
  ordering to the raw account contents.
* The pandas candidate pool (`df_book`, filtered and with rows dropped by
  index label) is a Lean list in the loaded order; `candidates.iloc[0]`
  is the first list element satisfying the filter, and
  `df_book.drop(match.name)` removes exactly that element
  (`List.find?` / `List.eraseP`).
* Float constants (`1.0`, `0.95`) and the engine's un-rounded
  `match_rate` ratio are modelled as exact rationals (the constants and
  the ratio's numerator and denominator are what the claims compare).
  In `calculate_reconciliation_summary`, however, the result passes
  through `round(x, 2)`, whose outcome is sensitive to the binary64
  representation, so there the double arithmetic (`/`, `* 100` and
  CPython's float `round`) is modelled bit-exactly: `roundToDouble`
  rounds an exact rational to the nearest IEEE-754 binary64 value
  (round to nearest, ties to even, with subnormals; overflow cannot be
  reached by these inputs, which lie in `[0, 100.005]`).
* The result dictionary of `run_auto_verification` has a `match_rate` key
  only on the non-empty path and a `message` key only on the empty path;
  both are `Option` fields of `RunResult`, `none` meaning the key is
  absent.  The `ReconciliationMatch.objects.create(...)` side effects are
  collected in the `matches` field.
-/

namespace Forensics

/-- A row of the `Transaction` model (`models.py`): the fields the
reconciliation engine reads, plus `created_at`, which the model's default
ordering `['-date', '-created_at']` uses as a tie-break. -/
structure Tx where
  id : Nat
  date : Int
  amount : Int
  description : String
  created_at : Nat
deriving DecidableEq

/-- `match_type` values of `ReconciliationMatch.MATCH_TYPE_CHOICES`
(`models.py`).  The display label of `FUZZY_DATE` is "Date Slippage". -/
inductive MatchType where
  | EXACT
  | FUZZY_DATE
  | FUZZY_DESCRIPTION
  | MANUAL
deriving DecidableEq

/-- A row of the `ReconciliationMatch` model as created by the engine:
foreign keys by id (`book_entry` is nullable), match type and confidence
score. -/
structure ReconciliationMatch where
  bank_transaction_id : Nat
  book_entry_id : Option Nat
  match_type : MatchType
  confidence_score : ℚ
deriving DecidableEq

/-- The ordering `Transaction.Meta.ordering = ['-date', '-created_at']`:
`a` comes no later than `b` when `a.date` is larger, or the dates are
equal and `a.created_at` is no smaller. -/
def ormLe (a b : Tx) : Prop :=
  b.date < a.date ∨ (a.date = b.date ∧ b.created_at ≤ a.created_at)

instance (a b : Tx) : Decidable (ormLe a b) :=
  inferInstanceAs (Decidable (b.date < a.date ∨ (a.date = b.date ∧ b.created_at ≤ a.created_at)))

instance : IsTotal Tx ormLe where
  total a b := by
    unfold ormLe
    omega

instance : IsTrans Tx ormLe where
  trans a b c hab hbc := by
    unfold ormLe at *
    omega

/-- `list(Transaction.objects.filter(account_id=...).values())`: the
account's rows in the model's default ordering `['-date', '-created_at']`. -/
def loadTxs (l : List Tx) : List Tx :=
  List.insertionSort ormLe l

/-- The date buffer `timedelta(days=5)` of `run_auto_verification`. -/
def toleranceDays : Int := 5

/-- The candidate filter of `run_auto_verification`: same amount
(`df_book['amount'] == bank_row['amount']`), then
`candidates['date'] <= bank_row['date']` and
`candidates['date'] >= bank_row['date'] - timedelta(days=5)`. -/
def isCandidate (b k : Tx) : Bool :=
  k.amount == b.amount && decide (k.date ≤ b.date) &&
    decide (b.date - toleranceDays ≤ k.date)

/-- `abs((bank_row['date'] - match['date']).days)`. -/
def dateDiff (b k : Tx) : Nat :=
  (b.date - k.date).natAbs

/-- The `ReconciliationMatch.objects.create(...)` call of
`run_auto_verification`: EXACT with confidence 1.0 when the date
difference is zero, otherwise FUZZY_DATE with confidence 0.95. -/
def makeMatch (b k : Tx) : ReconciliationMatch :=
  if dateDiff b k = 0 then
    { bank_transaction_id := b.id, book_entry_id := some k.id
      match_type := MatchType.EXACT, confidence_score := 1 }
  else
    { bank_transaction_id := b.id, book_entry_id := some k.id
      match_type := MatchType.FUZZY_DATE, confidence_score := 19/20 }

/-- The main loop of `run_auto_verification`: for each bank row in order,
take the first pool row passing `isCandidate` (`candidates.iloc[0]`),
record a match and increment `matches_created`, and drop that row from
the pool (`df_book = df_book.drop(match.name)`).  Returns the created
matches (in creation order) and the final counter. -/
def matchLoop : List Tx → List Tx → List ReconciliationMatch × Nat
  | [], _ => ([], 0)
  | b :: bs, pool =>
    match pool.find? (isCandidate b) with
    | none => matchLoop bs pool
    | some k =>
      let rest := matchLoop bs (pool.eraseP (isCandidate b))
      (makeMatch b k :: rest.1, rest.2 + 1)

/-- The pool trace of the main loop: for each bank row, the state of
`df_book` at the moment that row is processed.  The branch structure
mirrors `matchLoop`. -/
def poolTrace : List Tx → List Tx → List (Tx × List Tx)
  | [], _ => []
  | b :: bs, pool =>
    (b, pool) ::
      match pool.find? (isCandidate b) with
      | none => poolTrace bs pool
      | some _ => poolTrace bs (pool.eraseP (isCandidate b))

/-- The dictionary returned by `run_auto_verification`, with the created
`ReconciliationMatch` rows.  `match_rate = none` / `message = none` mean
the corresponding dictionary key is absent. -/
structure RunResult where
  matches_created : Nat
  bank_transactions : Nat
  book_transactions : Nat
  match_rate : Option ℚ
  message : Option String
  created_matches : List ReconciliationMatch
deriving DecidableEq

/-- `run_auto_verification` (`reconciliation.py`), over the raw contents
of the two accounts: load both sides in ORM order, return the
empty-input dictionary if either list is empty, otherwise run the
matching loop and return the statistics dictionary. -/
def run_auto_verification (bank book : List Tx) : RunResult :=
  let bank_txs := loadTxs bank
  let book_txs := loadTxs book
  if bank_txs.isEmpty || book_txs.isEmpty then
    { matches_created := 0
      bank_transactions := bank_txs.length
      book_transactions := book_txs.length
      match_rate := none
      message := some "No transactions found in one or both accounts"
      created_matches := [] }
  else
    let res := matchLoop bank_txs book_txs
    { matches_created := res.2
      bank_transactions := bank_txs.length
      book_transactions := book_txs.length
      match_rate := some (if bank_txs = [] then 0 else (res.2 : ℚ) / (bank_txs.length : ℚ))
      message := none
      created_matches := res.1 }

/-- `get_unmatched_transactions` (`reconciliation.py`): keep every
transaction of the account with no match on its side
(`tx.bank_matches.exists()` / `tx.book_matches.exists()` over the given
match table), in input order. -/
def get_unmatched_transactions (transactions : List Tx)
    (matchTable : List ReconciliationMatch) (is_bank : Bool) : List Tx :=
  transactions.filter fun tx =>
    if is_bank then
      ! matchTable.any fun m => m.bank_transaction_id == tx.id
    else
      ! matchTable.any fun m => m.book_entry_id == some tx.id

/-- The dictionary returned by `calculate_reconciliation_summary`. -/
structure SummaryResult where
  total_transactions : Nat
  matched : Nat
  unmatched : Nat
  match_rate_percent : ℚ
deriving DecidableEq

/-- Round to the nearest integer, ties to even: the rounding used both by
CPython's `round` on the decimal expansion and by IEEE-754
round-to-nearest at the mantissa level. -/
def pyRound (q : ℚ) : Int :=
  if q - ⌊q⌋ < 1/2 then ⌊q⌋
  else if 1/2 < q - ⌊q⌋ then ⌊q⌋ + 1
  else if ⌊q⌋ % 2 = 0 then ⌊q⌋ else ⌊q⌋ + 1

/-- Exponent of the unit in the last place of the binary64 value nearest
a positive rational: 52 below the leading-bit exponent, floored at the
subnormal limit `-1074`. -/
def ulpExp (q : ℚ) : Int :=
  max (Int.log 2 q - 52) (-1074)

/-- The exact value of the IEEE-754 binary64 number nearest a rational
(round to nearest, ties to even; subnormals flush towards multiples of
`2 ^ -1074`).  Overflow (`|q| ≥ 2 ^ 1024`) is not modelled; every value
reaching this function from the summary lies in `[0, 100.005]`. -/
def roundToDouble (q : ℚ) : ℚ :=
  if q = 0 then 0
  else if 0 < q then (pyRound (q / 2 ^ ulpExp q) : ℚ) * 2 ^ ulpExp q
  else -((pyRound (-q / 2 ^ ulpExp (-q)) : ℚ) * 2 ^ ulpExp (-q))

/-- CPython's true division of two numbers into a float: the correctly
rounded binary64 quotient of the exact values. -/
def floatDiv (a b : ℚ) : ℚ :=
  roundToDouble (a / b)

/-- IEEE-754 binary64 multiplication: the correctly rounded product of
the exact values. -/
def floatMul (a b : ℚ) : ℚ :=
  roundToDouble (a * b)

/-- CPython's `round(x, 2)` on a float: half-even rounding of the exact
decimal value of the double at the second decimal place, returned as the
nearest double. -/
def floatRound2 (x : ℚ) : ℚ :=
  roundToDouble ((pyRound (x * 100) : ℚ) / 100)

/-- The specification's reading of "`matched/total*100` rounded to 2
decimal places": half-even rounding of the exact rational at the second
decimal place, with no binary64 representation step.  Kept for
comparison with the source-faithful `floatRound2` chain, which the code
follows and which can differ in the last digit. -/
def specRound2 (q : ℚ) : ℚ :=
  (pyRound (q * 100) : ℚ) / 100

/-- `calculate_reconciliation_summary` (`reconciliation.py`) over the
bank-side rows and the match table: total, matched (bank rows with an
existing match), unmatched, and `round(matched / total * 100, 2)` — or
`round(0, 2)` when there are no rows — computed in binary64 float
arithmetic as the source does (`/` and `* 100` are correctly rounded
doubles, then CPython's float `round`). -/
def calculate_reconciliation_summary (bank_txs : List Tx)
    (matchTable : List ReconciliationMatch) : SummaryResult :=
  let total := bank_txs.length
  let matched := bank_txs.countP fun tx =>
    matchTable.any fun m => m.bank_transaction_id == tx.id
  let unmatched := total - matched
  let match_rate : ℚ :=
    if 0 < total then floatMul (floatDiv (matched : ℚ) (total : ℚ)) 100 else 0
  { total_transactions := total
    matched := matched
    unmatched := unmatched
    match_rate_percent := floatRound2 match_rate }

/-! ### Helper lemmas about loading, the candidate filter and match creation -/

lemma loadTxs_perm (l : List Tx) : (loadTxs l).Perm l :=
  List.perm_insertionSort ormLe l

lemma loadTxs_sorted (l : List Tx) : (loadTxs l).Pairwise ormLe :=
  List.sorted_insertionSort ormLe l

lemma loadTxs_length (l : List Tx) : (loadTxs l).length = l.length :=
  (loadTxs_perm l).length_eq

lemma loadTxs_eq_nil_iff {l : List Tx} : loadTxs l = [] ↔ l = [] := by
  constructor
  · intro h
    have := (loadTxs_perm l).length_eq
    rw [h] at this
    exact List.length_eq_zero.mp this.symm
  · intro h
    subst h
    rfl

lemma isCandidate_iff {b k : Tx} :
    isCandidate b k = true ↔
      k.amount = b.amount ∧ k.date ≤ b.date ∧ b.date - toleranceDays ≤ k.date := by
  simp [isCandidate, and_assoc]

lemma ormLe_date_le {a b : Tx} (h : ormLe a b) : b.date ≤ a.date := by
  unfold ormLe at h
  omega

lemma makeMatch_bank_id (b k : Tx) : (makeMatch b k).bank_transaction_id = b.id := by
  unfold makeMatch
  split <;> rfl

lemma makeMatch_book_id (b k : Tx) : (makeMatch b k).book_entry_id = some k.id := by
  unfold makeMatch
  split <;> rfl

lemma makeMatch_type_iff (b k : Tx) :
    (makeMatch b k).match_type = MatchType.EXACT ↔ dateDiff b k = 0 := by
  unfold makeMatch
  split <;> simp_all

lemma makeMatch_conf_exact (b k : Tx)
    (h : (makeMatch b k).match_type = MatchType.EXACT) :
    (makeMatch b k).confidence_score = 1 := by
  unfold makeMatch at *
  split at h <;> simp_all

lemma makeMatch_conf_fuzzy (b k : Tx)
    (h : (makeMatch b k).match_type = MatchType.FUZZY_DATE) :
    (makeMatch b k).confidence_score = 19/20 := by
  unfold makeMatch at *
  split at h <;> simp_all

lemma makeMatch_type_cases (b k : Tx) :
    (makeMatch b k).match_type = MatchType.EXACT ∨
      (makeMatch b k).match_type = MatchType.FUZZY_DATE := by
  unfold makeMatch
  split
  · exact Or.inl rfl
  · exact Or.inr rfl

/-- `find?` finds the first element satisfying `p`, and `eraseP` removes
exactly that element. -/
lemma find?_eraseP {p : Tx → Bool} :
    ∀ {l : List Tx} {a : Tx}, l.find? p = some a →
      ∃ l₁ l₂, l = l₁ ++ a :: l₂ ∧ (∀ x ∈ l₁, p x = false) ∧ l.eraseP p = l₁ ++ l₂ := by
  intro l
  induction l with
  | nil => intro a h; simp at h
  | cons x xs ih =>
    intro a h
    by_cases hx : p x = true
    · rw [List.find?_cons_of_pos _ hx] at h
      obtain rfl : x = a := by injection h
      exact ⟨[], xs, by simp, by simp, by simp [List.eraseP_cons_of_pos hx]⟩
    · rw [List.find?_cons_of_neg _ hx] at h
      obtain ⟨l₁, l₂, hsplit, hneg, herase⟩ := ih h
      refine ⟨x :: l₁, l₂, by simp [hsplit], ?_, ?_⟩
      · intro y hy
        rcases List.mem_cons.mp hy with rfl | hy
        · simpa using hx
        · exact hneg y hy
      · simp [List.eraseP_cons_of_neg hx, herase]

/-! ### Lemmas about the main matching loop -/

lemma matchLoop_snd_eq_length :
    ∀ (bs pool : List Tx), (matchLoop bs pool).2 = (matchLoop bs pool).1.length := by
  intro bs
  induction bs with
  | nil => intro pool; rfl
  | cons b bs ih =>
    intro pool
    cases hf : pool.find? (isCandidate b) with
    | none => simp [matchLoop, hf, ih]
    | some k => simp [matchLoop, hf, ih]

lemma matchLoop_length_le_bank :
    ∀ (bs pool : List Tx), (matchLoop bs pool).1.length ≤ bs.length := by
  intro bs
  induction bs with
  | nil => intro pool; simp [matchLoop]
  | cons b bs ih =>
    intro pool
    cases hf : pool.find? (isCandidate b) with
    | none =>
      simp only [matchLoop, hf]
      exact le_trans (ih pool) (by simp)
    | some k =>
      simp only [matchLoop, hf, List.length_cons]
      exact Nat.succ_le_succ (ih _)

lemma matchLoop_length_le_pool :
    ∀ (bs pool : List Tx), (matchLoop bs pool).1.length ≤ pool.length := by
  intro bs
  induction bs with
  | nil => intro pool; simp [matchLoop]
  | cons b bs ih =>
    intro pool
    cases hf : pool.find? (isCandidate b) with
    | none => simpa only [matchLoop, hf] using ih pool
    | some k =>
      simp only [matchLoop, hf, List.length_cons]
      have hlen : (pool.eraseP (isCandidate b)).length + 1 = pool.length :=
        List.length_eraseP_add_one (List.mem_of_find?_eq_some hf)
          (List.find?_some hf)
      have := ih (pool.eraseP (isCandidate b))
      omega

lemma matchLoop_sound :
    ∀ (bs pool : List Tx), ∀ r ∈ (matchLoop bs pool).1,
      ∃ b ∈ bs, ∃ k ∈ pool, r = makeMatch b k ∧ isCandidate b k = true := by
  intro bs
  induction bs with
  | nil => intro pool r hr; simp [matchLoop] at hr
  | cons b bs ih =>
    intro pool r hr
    cases hf : pool.find? (isCandidate b) with
    | none =>
      rw [matchLoop, hf] at hr
      obtain ⟨b', hb', k, hk, hrest⟩ := ih pool r hr
      exact ⟨b', List.mem_cons_of_mem _ hb', k, hk, hrest⟩
    | some k =>
      rw [matchLoop, hf] at hr
      rcases List.mem_cons.mp hr with rfl | hr
      · exact ⟨b, List.mem_cons_self _ _, k, List.mem_of_find?_eq_some hf,
          rfl, List.find?_some hf⟩
      · obtain ⟨b', hb', k', hk', hrest⟩ := ih _ r hr
        exact ⟨b', List.mem_cons_of_mem _ hb',
          k', (List.eraseP_sublist pool).subset hk', hrest⟩

lemma matchLoop_bank_ids_sublist :
    ∀ (bs pool : List Tx),
      ((matchLoop bs pool).1.map ReconciliationMatch.bank_transaction_id).Sublist
        (bs.map Tx.id) := by
  intro bs
  induction bs with
  | nil => intro pool; simp [matchLoop]
  | cons b bs ih =>
    intro pool
    cases hf : pool.find? (isCandidate b) with
    | none =>
      rw [matchLoop, hf]
      exact (ih pool).trans (List.sublist_cons_self _ _)
    | some k =>
      rw [matchLoop, hf]
      simpa [makeMatch_bank_id] using List.Sublist.cons₂ b.id (ih _)

lemma matchLoop_book_ids_nodup :
    ∀ (bs pool : List Tx), (pool.map Tx.id).Nodup →
      ((matchLoop bs pool).1.map ReconciliationMatch.book_entry_id).Nodup := by
  intro bs
  induction bs with
  | nil => intro pool _; simp [matchLoop]
  | cons b bs ih =>
    intro pool hnd
    cases hf : pool.find? (isCandidate b) with
    | none =>
      rw [matchLoop, hf]
      exact ih pool hnd
    | some k =>
      rw [matchLoop, hf]
      obtain ⟨l₁, l₂, hsplit, _, herase⟩ := find?_eraseP hf
      have hnd' : ((pool.eraseP (isCandidate b)).map Tx.id).Nodup :=
        ((List.eraseP_sublist pool).map Tx.id).nodup hnd
      refine List.nodup_cons.mpr ⟨?_, ih _ hnd'⟩
      intro hmem
      simp only [makeMatch_book_id, List.mem_map] at hmem
      obtain ⟨r, hr, hrid⟩ := hmem
      obtain ⟨b', _, k', hk', rfl, _⟩ := matchLoop_sound _ _ r hr
      rw [makeMatch_book_id] at hrid
      have hkid : k'.id = k.id := by injection hrid
      have hkmem : k.id ∈ ((pool.eraseP (isCandidate b)).map Tx.id) :=
        List.mem_map.mpr ⟨k', hk', hkid⟩
      rw [herase] at hkmem
      have : (pool.map Tx.id).Nodup := hnd
      rw [hsplit] at this
      simp only [List.map_append, List.map_cons] at this
      have hnotmem : k.id ∉ l₁.map Tx.id ++ l₂.map Tx.id := by
        have := List.nodup_middle.mp (by simpa using this)
        exact (List.nodup_cons.mp this).1
      exact hnotmem (by simpa using hkmem)

/-! ### Lemmas about the pool trace and candidate selection -/

lemma poolTrace_sublist :
    ∀ (bs pool : List Tx) {b : Tx} {P : List Tx},
      (b, P) ∈ poolTrace bs pool → P.Sublist pool := by
  intro bs
  induction bs with
  | nil => intro pool b P h; simp [poolTrace] at h
  | cons b₁ bs ih =>
    intro pool b P h
    rw [poolTrace] at h
    rcases List.mem_cons.mp h with heq | h
    · obtain ⟨rfl, rfl⟩ : b₁ = b ∧ pool = P := by
        constructor <;> injection heq <;> simp_all
      exact List.Sublist.refl _
    · cases hf : pool.find? (isCandidate b₁) with
      | none =>
        rw [hf] at h
        exact ih pool h
      | some k =>
        rw [hf] at h
        exact (ih _ h).trans (List.eraseP_sublist pool)

lemma poolTrace_emits :
    ∀ (bs pool : List Tx) {b k₀ : Tx} {P : List Tx},
      (b, P) ∈ poolTrace bs pool → P.find? (isCandidate b) = some k₀ →
        makeMatch b k₀ ∈ (matchLoop bs pool).1 := by
  intro bs
  induction bs with
  | nil => intro pool b k₀ P h _; simp [poolTrace] at h
  | cons b₁ bs ih =>
    intro pool b k₀ P h hfind
    rw [poolTrace] at h
    rcases List.mem_cons.mp h with heq | h
    · obtain ⟨rfl, rfl⟩ : b₁ = b ∧ pool = P := by
        constructor <;> injection heq <;> simp_all
      rw [matchLoop, hfind]
      exact List.mem_cons_self _ _
    · cases hf : pool.find? (isCandidate b₁) with
      | none =>
        rw [hf] at h
        rw [matchLoop, hf]
        exact ih pool h hfind
      | some k =>
        rw [hf] at h
        rw [matchLoop, hf]
        exact List.mem_cons_of_mem _ (ih _ h hfind)

/-- In a pool sorted by the model ordering (dates non-increasing), the
first candidate passing the filter has the smallest date difference among
all candidates that pass it. -/
lemma find?_closest {P : List Tx} {b k₀ : Tx}
    (hsorted : P.Pairwise ormLe)
    (hfind : P.find? (isCandidate b) = some k₀) :
    ∀ k ∈ P, isCandidate b k = true → dateDiff b k₀ ≤ dateDiff b k := by
  obtain ⟨l₁, l₂, hsplit, hneg, _⟩ := find?_eraseP hfind
  intro k hk hkc
  subst hsplit
  rcases List.mem_append.mp hk with hk₁ | hk₂
  · exact absurd hkc (by simp [hneg k hk₁])
  · rcases List.mem_cons.mp hk₂ with rfl | hk₂
    · exact le_refl _
    · have htail : (k₀ :: l₂).Pairwise ormLe :=
        List.Pairwise.sublist (List.sublist_append_right l₁ (k₀ :: l₂)) hsorted
      have hle : ormLe k₀ k := (List.pairwise_cons.mp htail).1 k hk₂
      have hdk : k.date ≤ k₀.date := ormLe_date_le hle
      have h₀ := isCandidate_iff.mp (List.find?_some hfind)
      have h₁ := isCandidate_iff.mp hkc
      unfold dateDiff
      omega

/-! ### Lemmas about the binary64 rounding model -/

lemma pyRound_eq_low {q : ℚ} {n : ℤ} (h1 : (n : ℚ) ≤ q) (h2 : q < (n : ℚ) + 1/2) :
    pyRound q = n := by
  have hf : ⌊q⌋ = n := Int.floor_eq_iff.mpr ⟨h1, by linarith⟩
  unfold pyRound
  simp only [hf]
  rw [if_pos (show q - (n:ℚ) < 1/2 by linarith)]

lemma pyRound_eq_tie_odd (q : ℚ) (n : ℤ) (h : q = (n : ℚ) + 1/2) (hodd : n % 2 = 1) :
    pyRound q = n + 1 := by
  have hf : ⌊q⌋ = n := Int.floor_eq_iff.mpr ⟨by rw [h]; linarith, by rw [h]; linarith⟩
  have e1 : q - (n:ℚ) = 1/2 := by rw [h]; ring
  unfold pyRound
  simp only [hf]
  rw [if_neg (by rw [e1]; norm_num), if_neg (by rw [e1]; norm_num), if_neg (by omega)]

lemma log2_eq {q : ℚ} (k : ℤ) (hq : 0 < q)
    (h1 : (2:ℚ)^k ≤ q) (h2 : q < (2:ℚ)^(k+1)) : Int.log 2 q = k := by
  have hcast : ((2:ℕ):ℚ) = (2:ℚ) := by norm_num
  refine le_antisymm ?_ ?_
  · by_contra hcon
    push_neg at hcon
    have hmono : (2:ℚ)^(k+1) ≤ (2:ℚ)^(Int.log 2 q) :=
      zpow_le_zpow_right₀ (by norm_num) hcon
    have hle : ((2:ℕ):ℚ)^(Int.log 2 q) ≤ q := Int.zpow_log_le_self (by norm_num) hq
    rw [hcast] at hle
    linarith
  · have hzpow : Int.log 2 ((2:ℚ)^k) = k := by
      rw [← hcast]
      exact Int.log_zpow (by norm_num) k
    calc k = Int.log 2 ((2:ℚ)^k) := hzpow.symm
      _ ≤ Int.log 2 q := Int.log_mono_right (by positivity) h1

lemma roundToDouble_eq (q : ℚ) (k m : ℤ) (hq : 0 < q) (hk : -1022 ≤ k)
    (h1 : (2:ℚ)^k ≤ q) (h2 : q < (2:ℚ)^(k+1))
    (hm : pyRound (q / 2^(k-52)) = m) :
    roundToDouble q = (m:ℚ) * 2^(k-52) := by
  have hulp : ulpExp q = k - 52 := by
    unfold ulpExp
    rw [log2_eq k hq h1 h2]
    omega
  unfold roundToDouble
  rw [if_neg hq.ne', if_pos hq, hulp, hm]

lemma floatRound2_zero : floatRound2 0 = 0 := by
  unfold floatRound2
  have h0 : pyRound ((0:ℚ) * 100) = 0 := by
    have e : ((0:ℚ) * 100) = 0 := by norm_num
    rw [e]
    unfold pyRound
    norm_num
  rw [h0]
  show roundToDouble (((0:ℤ):ℚ)/100) = 0
  norm_num [roundToDouble]

/-- The binary64 value of `107 / 4000` (exactly the CPython float). -/
lemma floatDiv_107_4000 :
    floatDiv 107 4000 = (7710162562058289 : ℚ) * 2 ^ (-58 : ℤ) := by
  have hm : pyRound (((107:ℚ)/4000) / 2 ^ ((-6:ℤ) - 52)) = 7710162562058289 := by
    have he : ((-6:ℤ) - 52) = -58 := by norm_num
    rw [he]
    exact pyRound_eq_low (by norm_num) (by norm_num)
  have h := roundToDouble_eq ((107:ℚ)/4000) (-6) 7710162562058289
    (by norm_num) (by norm_num) (by norm_num) (by norm_num) hm
  unfold floatDiv
  rw [h]
  norm_num

/-- The binary64 product of the double of `107/4000` with `100`: the
double strictly below the decimal `2.675`. -/
lemma floatMul_107_4000_100 :
    floatMul ((7710162562058289 : ℚ) * 2 ^ (-58 : ℤ)) 100 =
      (6023564501608038 : ℚ) * 2 ^ (-51 : ℤ) := by
  have hm : pyRound ((((7710162562058289:ℚ) * 2 ^ (-58:ℤ)) * 100) / 2 ^ ((1:ℤ) - 52)) =
      6023564501608038 := by
    have he : ((1:ℤ) - 52) = -51 := by norm_num
    rw [he]
    exact pyRound_eq_low (by norm_num) (by norm_num)
  have h := roundToDouble_eq (((7710162562058289:ℚ) * 2 ^ (-58:ℤ)) * 100) 1 6023564501608038
    (by norm_num) (by norm_num) (by norm_num) (by norm_num) hm
  unfold floatMul
  rw [h]
  norm_num

/-- CPython's `round(x, 2)` on that double: its exact value is below
`2.675`, so the second decimal rounds down to `2.67`, returned as the
nearest double. -/
lemma floatRound2_at_counterexample :
    floatRound2 ((6023564501608038 : ℚ) * 2 ^ (-51 : ℤ)) =
      (6012305502539612 : ℚ) * 2 ^ (-51 : ℤ) := by
  unfold floatRound2
  have hp : pyRound (((6023564501608038:ℚ) * 2 ^ (-51:ℤ)) * 100) = 267 :=
    pyRound_eq_low (by norm_num) (by norm_num)
  rw [hp]
  have hm : pyRound ((((267:ℤ):ℚ)/100) / 2 ^ ((1:ℤ) - 52)) = 6012305502539612 := by
    have he : ((1:ℤ) - 52) = -51 := by norm_num
    rw [he]
    exact pyRound_eq_low (by norm_num) (by norm_num)
  have h := roundToDouble_eq (((267:ℤ):ℚ)/100) 1 6012305502539612
    (by norm_num) (by norm_num) (by norm_num) (by norm_num) hm
  rw [h]
  norm_num

/-- The exact two-decimal rounding of `107/4000*100 = 2.675`: the tie
goes up to `2.68` (half-even at an odd digit). -/
lemma specRound2_at_counterexample : specRound2 ((107:ℚ)/4000 * 100) = 268/100 := by
  unfold specRound2
  have h : pyRound (((107:ℚ)/4000 * 100) * 100) = 268 := by
    have := pyRound_eq_tie_odd (((107:ℚ)/4000 * 100) * 100) 267 (by norm_num) (by norm_num)
    omega
  rw [h]
  norm_num

/-! ### Branch lemmas for `run_auto_verification` -/

lemma run_eq_empty {bank book : List Tx} (h : bank = [] ∨ book = []) :
    run_auto_verification bank book =
      { matches_created := 0
        bank_transactions := (loadTxs bank).length
        book_transactions := (loadTxs book).length
        match_rate := none
        message := some "No transactions found in one or both accounts"
        created_matches := [] } := by
  have h' : loadTxs bank = [] ∨ loadTxs book = [] := by
    rcases h with h | h <;> [left; right] <;> exact loadTxs_eq_nil_iff.mpr h
  unfold run_auto_verification
  rcases h' with h' | h' <;> simp [h']

lemma run_eq_nonempty {bank book : List Tx}
    (hb : bank ≠ []) (hk : book ≠ []) :
    run_auto_verification bank book =
      { matches_created := (matchLoop (loadTxs bank) (loadTxs book)).2
        bank_transactions := (loadTxs bank).length
        book_transactions := (loadTxs book).length
        match_rate := some (((matchLoop (loadTxs bank) (loadTxs book)).2 : ℚ) /
          ((loadTxs bank).length : ℚ))
        message := none
        created_matches := (matchLoop (loadTxs bank) (loadTxs book)).1 } := by
  have hb' : loadTxs bank ≠ [] := fun h => hb (loadTxs_eq_nil_iff.mp h)
  have hk' : loadTxs book ≠ [] := fun h => hk (loadTxs_eq_nil_iff.mp h)
  unfold run_auto_verification
  simp [hb', hk']

/-- For every match the loop emits, the bank row comes from the bank side,
the book row from the pool, and the pair passed the candidate filter. -/
lemma run_sound (bank book : List Tx) :
    ∀ r ∈ (run_auto_verification bank book).created_matches,
      ∃ b ∈ bank, ∃ k ∈ book, r = makeMatch b k ∧ isCandidate b k = true := by
  intro r hr
  by_cases hb : bank = []
  · rw [run_eq_empty (Or.inl hb)] at hr
    simp at hr
  by_cases hk : book = []
  · rw [run_eq_empty (Or.inr hk)] at hr
    simp at hr
  rw [run_eq_nonempty hb hk] at hr
  obtain ⟨b, hbmem, k, hkmem, hrest⟩ := matchLoop_sound _ _ r hr
  exact ⟨b, (loadTxs_perm bank).mem_iff.mp hbmem,
    k, (loadTxs_perm book).mem_iff.mp hkmem, hrest⟩

/-! ### Claim theorems -/

/-- C1: for every bank transaction whose eligible candidate subset is
non-empty, the matcher selects — and emits a match for — the book
candidate with the smallest date difference to the bank date; when
several eligible candidates tie on the minimal date difference, the one
encountered first in the pool's iteration order is selected.  `P` is the
candidate pool at the moment bank row `b` is processed. -/
theorem run_selects_closest_date_first_found
    (bank book : List Tx) (b k₀ : Tx) (P : List Tx)
    (hmem : (b, P) ∈ poolTrace (loadTxs bank) (loadTxs book))
    (hfind : P.find? (isCandidate b) = some k₀) :
    k₀ ∈ P ∧ isCandidate b k₀ = true ∧
      makeMatch b k₀ ∈ (run_auto_verification bank book).created_matches ∧
      (∀ k ∈ P, isCandidate b k = true → dateDiff b k₀ ≤ dateDiff b k) ∧
      ∃ l₁ l₂, P = l₁ ++ k₀ :: l₂ ∧
        ∀ k ∈ l₁, ¬(isCandidate b k = true ∧ dateDiff b k = dateDiff b k₀) := by
  have hbank : loadTxs bank ≠ [] := by
    intro h
    rw [h] at hmem
    simp [poolTrace] at hmem
  have hP : P ≠ [] := by
    intro h
    rw [h] at hfind
    simp at hfind
  have hPsub : P.Sublist (loadTxs book) := poolTrace_sublist _ _ hmem
  have hbook : loadTxs book ≠ [] := by
    intro h
    rw [h] at hPsub
    exact hP (List.sublist_nil.mp hPsub)
  have hsorted : P.Pairwise ormLe :=
    List.Pairwise.sublist hPsub (loadTxs_sorted book)
  refine ⟨List.mem_of_find?_eq_some hfind, List.find?_some hfind, ?_, ?_, ?_⟩
  · rw [run_eq_nonempty (fun h => hbank (loadTxs_eq_nil_iff.mpr h))
      (fun h => hbook (loadTxs_eq_nil_iff.mpr h))]
    exact poolTrace_emits _ _ hmem hfind
  · exact find?_closest hsorted hfind
  · obtain ⟨l₁, l₂, hsplit, hneg, _⟩ := find?_eraseP hfind
    exact ⟨l₁, l₂, hsplit, fun k hk hcontra => by simp [hneg k hk] at hcontra⟩

def bankA : Tx := ⟨1, 100, 50000, "p", 0⟩

def bookA : Tx := ⟨2, 100, 50000, "c1", 1⟩

def bookB : Tx := ⟨3, 97, 50000, "c2", 2⟩

/-- Witness for C1 at a concrete run: pool `[bookA, bookB]` (loaded order
of `[bookB, bookA]`), both eligible for `bankA`; the closest-date
candidate `bookA` is selected. -/
theorem run_selects_closest_date_first_found_witness :
    bookA ∈ [bookA, bookB] ∧ isCandidate bankA bookA = true ∧
      makeMatch bankA bookA ∈
        (run_auto_verification [bankA] [bookB, bookA]).created_matches ∧
      (∀ k ∈ [bookA, bookB], isCandidate bankA k = true →
        dateDiff bankA bookA ≤ dateDiff bankA k) ∧
      ∃ l₁ l₂, [bookA, bookB] = l₁ ++ bookA :: l₂ ∧
        ∀ k ∈ l₁, ¬(isCandidate bankA k = true ∧
          dateDiff bankA k = dateDiff bankA bookA) :=
  run_selects_closest_date_first_found [bankA] [bookB, bookA] bankA bookA
    [bookA, bookB] (by decide) (by decide)

/-- C2 (code bug): on the empty-input path the engine does return zero
matches and the informational message without raising, but the returned
dictionary has no `match_rate` key at all — it is not reported as `0`.
Evaluation at the failing input (empty bank side, one book row). -/
theorem run_empty_input_has_no_match_rate_key :
    (run_auto_verification [] [bookA]).matches_created = 0 ∧
      (run_auto_verification [] [bookA]).message =
        some "No transactions found in one or both accounts" ∧
      (run_auto_verification [] [bookA]).match_rate = none ∧
      (run_auto_verification [bankA] []).match_rate = none :=
  ⟨rfl, rfl, rfl, rfl⟩

/-- C3: in a single run, no book transaction id appears as `book_entry_id`
in more than one created match, and no bank transaction id appears as
`bank_transaction_id` in more than one created match (so a bank
transaction produces at most one match).  Transaction ids are unique on
each side (database primary keys). -/
theorem run_pool_exclusivity (bank book : List Tx)
    (hbank : (bank.map Tx.id).Nodup) (hbook : (book.map Tx.id).Nodup) :
    (((run_auto_verification bank book).created_matches).map
      ReconciliationMatch.book_entry_id).Nodup ∧
    (((run_auto_verification bank book).created_matches).map
      ReconciliationMatch.bank_transaction_id).Nodup := by
  by_cases hb : bank = []
  · rw [run_eq_empty (Or.inl hb)]
    simp
  by_cases hk : book = []
  · rw [run_eq_empty (Or.inr hk)]
    simp
  rw [run_eq_nonempty hb hk]
  have hbank' : ((loadTxs bank).map Tx.id).Nodup :=
    (((loadTxs_perm bank).map Tx.id).nodup_iff).mpr hbank
  have hbook' : ((loadTxs book).map Tx.id).Nodup :=
    (((loadTxs_perm book).map Tx.id).nodup_iff).mpr hbook
  exact ⟨matchLoop_book_ids_nodup _ _ hbook',
    (matchLoop_bank_ids_sublist _ _).nodup hbank'⟩

/-- Witness for C3 at a concrete run with one bank row and two book rows. -/
theorem run_pool_exclusivity_witness :
    (((run_auto_verification [bankA] [bookB, bookA]).created_matches).map
      ReconciliationMatch.book_entry_id).Nodup ∧
    (((run_auto_verification [bankA] [bookB, bookA]).created_matches).map
      ReconciliationMatch.bank_transaction_id).Nodup :=
  run_pool_exclusivity [bankA] [bookB, bookA] (by decide) (by decide)

/-- C4: every created match pairs a bank transaction and a book
transaction with exactly equal amounts, with the book date on or before
the bank date and the date difference at most `toleranceDays` days. -/
theorem run_match_amount_and_date_window (bank book : List Tx)
    (r : ReconciliationMatch)
    (hr : r ∈ (run_auto_verification bank book).created_matches) :
    ∃ b ∈ bank, ∃ k ∈ book,
      r.bank_transaction_id = b.id ∧ r.book_entry_id = some k.id ∧
      k.amount = b.amount ∧ k.date ≤ b.date ∧
      0 ≤ b.date - k.date ∧ b.date - k.date ≤ toleranceDays := by
  obtain ⟨b, hb, k, hk, rfl, hcand⟩ := run_sound bank book r hr
  obtain ⟨hamount, hdle, hwin⟩ := isCandidate_iff.mp hcand
  exact ⟨b, hb, k, hk, makeMatch_bank_id b k, makeMatch_book_id b k,
    hamount, hdle, by omega, by omega⟩

/-- Witness for C4 at a concrete run (exact-date pair). -/
theorem run_match_amount_and_date_window_witness :
    ∃ b ∈ [bankA], ∃ k ∈ [bookB, bookA],
      (makeMatch bankA bookA).bank_transaction_id = b.id ∧
      (makeMatch bankA bookA).book_entry_id = some k.id ∧
      k.amount = b.amount ∧ k.date ≤ b.date ∧
      0 ≤ b.date - k.date ∧ b.date - k.date ≤ toleranceDays :=
  run_match_amount_and_date_window [bankA] [bookB, bookA]
    (makeMatch bankA bookA) (by rw [run_eq_nonempty] <;> decide)

/-- C5: every created match is `EXACT` exactly when the date difference
of the matched pair is zero; the confidence is exactly `1.0` for `EXACT`
and exactly `0.95` for the date-slippage kind (stored as `FUZZY_DATE`,
display label "Date Slippage"), and no other kind is emitted. -/
theorem run_match_kind_and_confidence (bank book : List Tx)
    (r : ReconciliationMatch)
    (hr : r ∈ (run_auto_verification bank book).created_matches) :
    ∃ b ∈ bank, ∃ k ∈ book,
      r.bank_transaction_id = b.id ∧ r.book_entry_id = some k.id ∧
      (r.match_type = MatchType.EXACT ↔ dateDiff b k = 0) ∧
      (r.match_type = MatchType.EXACT → r.confidence_score = 1) ∧
      (r.match_type = MatchType.FUZZY_DATE → r.confidence_score = 19/20) ∧
      (r.match_type = MatchType.EXACT ∨ r.match_type = MatchType.FUZZY_DATE) := by
  obtain ⟨b, hb, k, hk, rfl, _⟩ := run_sound bank book r hr
  exact ⟨b, hb, k, hk, makeMatch_bank_id b k, makeMatch_book_id b k,
    makeMatch_type_iff b k, makeMatch_conf_exact b k,
    makeMatch_conf_fuzzy b k, makeMatch_type_cases b k⟩

/-- Witness for C5 at a concrete run. -/
theorem run_match_kind_and_confidence_witness :
    ∃ b ∈ [bankA], ∃ k ∈ [bookB, bookA],
      (makeMatch bankA bookA).bank_transaction_id = b.id ∧
      (makeMatch bankA bookA).book_entry_id = some k.id ∧
      ((makeMatch bankA bookA).match_type = MatchType.EXACT ↔ dateDiff b k = 0) ∧
      ((makeMatch bankA bookA).match_type = MatchType.EXACT →
        (makeMatch bankA bookA).confidence_score = 1) ∧
      ((makeMatch bankA bookA).match_type = MatchType.FUZZY_DATE →
        (makeMatch bankA bookA).confidence_score = 19/20) ∧
      ((makeMatch bankA bookA).match_type = MatchType.EXACT ∨
        (makeMatch bankA bookA).match_type = MatchType.FUZZY_DATE) :=
  run_match_kind_and_confidence [bankA] [bookB, bookA]
    (makeMatch bankA bookA) (by rw [run_eq_nonempty] <;> decide)

/-- C6: the number of matches created never exceeds the size of either
input collection. -/
theorem run_matches_created_le_min (bank book : List Tx) :
    (run_auto_verification bank book).matches_created ≤
      min bank.length book.length := by
  by_cases hb : bank = []
  · rw [run_eq_empty (Or.inl hb)]
    simp
  by_cases hk : book = []
  · rw [run_eq_empty (Or.inr hk)]
    simp
  rw [run_eq_nonempty hb hk]
  refine le_min ?_ ?_
  · calc (matchLoop (loadTxs bank) (loadTxs book)).2
        = (matchLoop (loadTxs bank) (loadTxs book)).1.length :=
          matchLoop_snd_eq_length _ _
      _ ≤ (loadTxs bank).length := matchLoop_length_le_bank _ _
      _ = bank.length := loadTxs_length bank
  · calc (matchLoop (loadTxs bank) (loadTxs book)).2
        = (matchLoop (loadTxs bank) (loadTxs book)).1.length :=
          matchLoop_snd_eq_length _ _
      _ ≤ (loadTxs book).length := matchLoop_length_le_pool _ _
      _ = book.length := loadTxs_length book

/-- C7: on non-empty inputs the returned statistics have
`matches_created` equal to the number of matches emitted, the two input
sizes, and `match_rate` equal to `matches_created / bank_count`. -/
theorem run_stats_fields (bank book : List Tx)
    (hb : bank ≠ []) (hk : book ≠ []) :
    (run_auto_verification bank book).matches_created =
      (run_auto_verification bank book).created_matches.length ∧
    (run_auto_verification bank book).bank_transactions = bank.length ∧
    (run_auto_verification bank book).book_transactions = book.length ∧
    (run_auto_verification bank book).match_rate =
      some (((run_auto_verification bank book).matches_created : ℚ) /
        (bank.length : ℚ)) := by
  rw [run_eq_nonempty hb hk]
  refine ⟨matchLoop_snd_eq_length _ _, loadTxs_length bank, loadTxs_length book, ?_⟩
  rw [loadTxs_length bank]

/-- Witness for C7 at a concrete run. -/
theorem run_stats_fields_witness :
    (run_auto_verification [bankA] [bookB, bookA]).matches_created =
      (run_auto_verification [bankA] [bookB, bookA]).created_matches.length ∧
    (run_auto_verification [bankA] [bookB, bookA]).bank_transactions =
      ([bankA] : List Tx).length ∧
    (run_auto_verification [bankA] [bookB, bookA]).book_transactions =
      ([bookB, bookA] : List Tx).length ∧
    (run_auto_verification [bankA] [bookB, bookA]).match_rate =
      some (((run_auto_verification [bankA] [bookB, bookA]).matches_created : ℚ) /
        (([bankA] : List Tx).length : ℚ)) :=
  run_stats_fields [bankA] [bookB, bookA] (by decide) (by decide)

/-- C8: the unmatched query returns exactly the transactions of the given
side whose id is referenced by no match on that side (`bank_transaction_id`
for the bank side, `book_entry_id` for the book side), keeping the input's
relative order (it is a sublist of the input); it is a pure function of
its inputs. -/
theorem get_unmatched_spec (transactions : List Tx)
    (matchTable : List ReconciliationMatch) (is_bank : Bool) :
    (get_unmatched_transactions transactions matchTable is_bank).Sublist
      transactions ∧
    get_unmatched_transactions transactions matchTable is_bank =
      transactions.filter (fun tx =>
        if is_bank then
          decide (¬ ∃ m ∈ matchTable, m.bank_transaction_id = tx.id)
        else
          decide (¬ ∃ m ∈ matchTable, m.book_entry_id = some tx.id)) := by
  constructor
  · exact List.filter_sublist _
  · unfold get_unmatched_transactions
    congr 1
    funext tx
    cases is_bank <;>
      · rw [Bool.eq_iff_iff]
        simp [List.any_eq_true]

/-- C9 (amended): the reconciliation summary reports the input size, the
number of bank transactions with an associated match, the difference as
unmatched, and `matched/total*100` computed in binary64 float arithmetic
and rounded to two decimal places by CPython's float `round` (0 when the
input is empty).  The float computation can differ in the final digit
from the exact two-decimal rounding of `matched/total*100` (see the
counterexample at matched = 107, total = 4000). -/
theorem summary_fields (bank_txs : List Tx)
    (matchTable : List ReconciliationMatch) :
    (calculate_reconciliation_summary bank_txs matchTable).total_transactions =
      bank_txs.length ∧
    (calculate_reconciliation_summary bank_txs matchTable).matched =
      bank_txs.countP (fun tx =>
        decide (∃ m ∈ matchTable, m.bank_transaction_id = tx.id)) ∧
    (calculate_reconciliation_summary bank_txs matchTable).unmatched =
      bank_txs.length -
        (calculate_reconciliation_summary bank_txs matchTable).matched ∧
    (calculate_reconciliation_summary bank_txs matchTable).match_rate_percent =
      (if bank_txs.length = 0 then 0 else
        floatRound2 (floatMul (floatDiv
          (((calculate_reconciliation_summary bank_txs matchTable).matched : ℚ))
          ((bank_txs.length : ℚ))) 100)) := by
  have hcount : (bank_txs.countP fun tx =>
      matchTable.any fun m => m.bank_transaction_id == tx.id) =
      bank_txs.countP (fun tx =>
        decide (∃ m ∈ matchTable, m.bank_transaction_id = tx.id)) := by
    apply List.countP_congr
    intro tx _
    simp [List.any_eq_true]
  refine ⟨rfl, hcount, rfl, ?_⟩
  have hrate : (calculate_reconciliation_summary bank_txs matchTable).match_rate_percent =
      floatRound2 (if 0 < bank_txs.length then
        floatMul (floatDiv
          (((calculate_reconciliation_summary bank_txs matchTable).matched : ℚ))
          ((bank_txs.length : ℚ))) 100 else 0) := rfl
  rw [hrate]
  by_cases h : bank_txs.length = 0
  · rw [if_neg (show ¬ 0 < bank_txs.length by omega), if_pos h]
    exact floatRound2_zero
  · rw [if_pos (Nat.pos_of_ne_zero h), if_neg h]

def txMatched : Tx := ⟨0, 0, 0, "m", 0⟩

def txUnmatched : Tx := ⟨1, 0, 0, "u", 0⟩

/-- 4000 bank rows of which exactly the first 107 are referenced by a
match: 107/4000*100 = 2.675 sits exactly on a two-decimal rounding
boundary, where the binary64 computation falls below the exact value. -/
def bigBank : List Tx :=
  List.replicate 107 txMatched ++ List.replicate 3893 txUnmatched

def oneMatch : List ReconciliationMatch :=
  [⟨0, some 0, MatchType.EXACT, 1⟩]

lemma bigBank_length : bigBank.length = 4000 := by
  unfold bigBank
  rw [List.length_append, List.length_replicate, List.length_replicate]

lemma bigBank_matched :
    (bigBank.countP fun tx =>
      oneMatch.any fun m => m.bank_transaction_id == tx.id) = 107 := by
  have h1 : (oneMatch.any fun m => m.bank_transaction_id == txMatched.id) = true := by
    decide
  have h2 : ¬((oneMatch.any fun m => m.bank_transaction_id == txUnmatched.id) = true) := by
    decide
  unfold bigBank
  rw [List.countP_append, List.countP_replicate, List.countP_replicate,
    if_pos h1, if_neg h2]

lemma summary_total_proj (bank_txs : List Tx) (matchTable : List ReconciliationMatch) :
    (calculate_reconciliation_summary bank_txs matchTable).total_transactions =
      bank_txs.length := rfl

lemma summary_matched_proj (bank_txs : List Tx) (matchTable : List ReconciliationMatch) :
    (calculate_reconciliation_summary bank_txs matchTable).matched =
      bank_txs.countP fun tx =>
        matchTable.any fun m => m.bank_transaction_id == tx.id := rfl

lemma summary_rate_proj (bank_txs : List Tx) (matchTable : List ReconciliationMatch) :
    (calculate_reconciliation_summary bank_txs matchTable).match_rate_percent =
      floatRound2 (if 0 < bank_txs.length then
        floatMul (floatDiv
          (((bank_txs.countP fun tx =>
            matchTable.any fun m => m.bank_transaction_id == tx.id) : ℚ))
          ((bank_txs.length : ℚ))) 100 else 0) := rfl

lemma summary_big_rate :
    (calculate_reconciliation_summary bigBank oneMatch).match_rate_percent =
      floatRound2 (floatMul (floatDiv 107 4000) 100) := by
  rw [summary_rate_proj, bigBank_matched, bigBank_length]
  norm_num

/-- C9 counterexample: with 107 matched among 4000 bank rows the program
returns the binary64 value nearest the decimal 2.67 (because the double
for 107/4000*100 lies strictly below 2.675), while the exact two-decimal
rounding of matched/total*100 is 2.68 — so `match_rate_percent` is not
"matched/total*100 rounded to 2 decimal places". -/
theorem summary_round_counterexample :
    (calculate_reconciliation_summary bigBank oneMatch).total_transactions = 4000 ∧
    (calculate_reconciliation_summary bigBank oneMatch).matched = 107 ∧
    specRound2 ((107 : ℚ) / 4000 * 100) = 268 / 100 ∧
    (calculate_reconciliation_summary bigBank oneMatch).match_rate_percent =
      (6012305502539612 : ℚ) * 2 ^ (-51 : ℤ) ∧
    (calculate_reconciliation_summary bigBank oneMatch).match_rate_percent ≠
      specRound2
        (((calculate_reconciliation_summary bigBank oneMatch).matched : ℚ) /
          ((calculate_reconciliation_summary bigBank oneMatch).total_transactions : ℚ) *
          100) := by
  have htot : (calculate_reconciliation_summary bigBank oneMatch).total_transactions =
      4000 := (summary_total_proj bigBank oneMatch).trans bigBank_length
  have hmat : (calculate_reconciliation_summary bigBank oneMatch).matched =
      107 := (summary_matched_proj bigBank oneMatch).trans bigBank_matched
  have hval : (calculate_reconciliation_summary bigBank oneMatch).match_rate_percent =
      (6012305502539612 : ℚ) * 2 ^ (-51 : ℤ) := by
    rw [summary_big_rate, floatDiv_107_4000, floatMul_107_4000_100,
      floatRound2_at_counterexample]
  refine ⟨htot, hmat, specRound2_at_counterexample, hval, ?_⟩
  rw [hval, hmat, htot]
  rw [show (((107:ℕ):ℚ) / ((4000:ℕ):ℚ) * 100) = ((107:ℚ)/4000 * 100) by norm_num]
  rw [specRound2_at_counterexample]
  norm_num

/-- C10: the bank ids of the created matches, in emission order, form a
subsequence of the bank side's iteration order (the loaded ordering the
run processes the bank transactions in). -/
theorem run_output_in_bank_iteration_order (bank book : List Tx) :
    (((run_auto_verification bank book).created_matches).map
      ReconciliationMatch.bank_transaction_id).Sublist
      ((loadTxs bank).map Tx.id) := by
  by_cases hb : bank = []
  · rw [run_eq_empty (Or.inl hb)]
    simp
  by_cases hk : book = []
  · rw [run_eq_empty (Or.inr hk)]
    simp
  rw [run_eq_nonempty hb hk]
  exact matchLoop_bank_ids_sublist _ _

end Forensics
